import Mathlib

/-!
Verification of the semantic retrieval-and-grounding engine of the
astro-luxe-guide repository.

The development shallowly embeds the JavaScript source:

* `server/services/ragService.js` — class `LightweightRAGService`
  (segmentation, embedding index, cosine ranking, quality filter,
  query cache, PDF ingestion), namespace `RagService` below;
* `server/services/bnnService.js` — the fallback orchestrator
  (`isBNNPDFProcessed`, `loadBNNPDF`, `processPDF`, `searchBNNKnowledge`),
  namespace `BnnService` below;
* the earlier re-implementation of the RAG service found in
  `src/unnamed/part_006`, namespace `P6` below.

Texts are modelled as `List Char` (JS strings), floating point numbers as
`ℚ` (the claims settled here are about order, membership and control flow,
none of which depends on rounding), and the external collaborators
(pdftotext, the filesystem, the embedding backend) as explicit parameters
bundled in an `Env` record.  JS `Math.sqrt` is kept abstract as a function
parameter `sqrtFn : ℚ → ℚ`; every theorem below is proved for all values
of that parameter, hence in particular for real square root.
-/

/-- JS strings are modelled as lists of characters. -/
abbrev Txt := List Char

deriving instance DecidableEq for Except

/-- Rational addition, written so that the kernel can evaluate it on
literals (the library operation is `irreducible`); `qadd_eq` proves it
is ordinary addition. -/
def qadd (a b : ℚ) : ℚ := Rat.divInt (a.num * b.den + b.num * a.den) (a.den * b.den)

/-- Rational multiplication, kernel-evaluable; see `qmul_eq`. -/
def qmul (a b : ℚ) : ℚ := Rat.divInt (a.num * b.num) (a.den * b.den)

/-- Rational division, kernel-evaluable; see `qdiv_eq`.  Like JS float
division in every case the model reaches (division by zero is guarded
out by the source before dividing). -/
def qdiv (a b : ℚ) : ℚ := Rat.divInt (a.num * b.den) (a.den * b.num)

theorem qadd_eq (a b : ℚ) : qadd a b = a + b := by
  have ha : ((a.den : ℚ)) ≠ 0 := by exact_mod_cast a.den_nz
  have hb : ((b.den : ℚ)) ≠ 0 := by exact_mod_cast b.den_nz
  have hA : (a.num : ℚ) = a * a.den := (div_eq_iff ha).mp (Rat.num_div_den a)
  have hB : (b.num : ℚ) = b * b.den := (div_eq_iff hb).mp (Rat.num_div_den b)
  rw [qadd, Rat.divInt_eq_div]
  push_cast
  rw [div_eq_iff (mul_ne_zero ha hb), hA, hB]
  ring

theorem qmul_eq (a b : ℚ) : qmul a b = a * b := by
  have ha : ((a.den : ℚ)) ≠ 0 := by exact_mod_cast a.den_nz
  have hb : ((b.den : ℚ)) ≠ 0 := by exact_mod_cast b.den_nz
  have hA : (a.num : ℚ) = a * a.den := (div_eq_iff ha).mp (Rat.num_div_den a)
  have hB : (b.num : ℚ) = b * b.den := (div_eq_iff hb).mp (Rat.num_div_den b)
  rw [qmul, Rat.divInt_eq_div]
  push_cast
  rw [div_eq_iff (mul_ne_zero ha hb), hA, hB]
  ring

theorem qdiv_eq (a b : ℚ) : qdiv a b = a / b := by
  rcases eq_or_ne b 0 with rfl | hb0
  · simp [qdiv]
  · have ha : ((a.den : ℚ)) ≠ 0 := by exact_mod_cast a.den_nz
    have hbn : ((b.num : ℚ)) ≠ 0 := by exact_mod_cast Rat.num_ne_zero.mpr hb0
    have hbd : ((b.den : ℚ)) ≠ 0 := by exact_mod_cast b.den_nz
    have hA : (a.num : ℚ) = a * a.den := (div_eq_iff ha).mp (Rat.num_div_den a)
    have hB : (b.num : ℚ) = b * b.den := (div_eq_iff hbd).mp (Rat.num_div_den b)
    rw [qdiv, Rat.divInt_eq_div]
    push_cast
    rw [div_eq_div_iff (mul_ne_zero ha hbn) hb0, hA, hB]
    ring

namespace JsStr

/-- Whitespace characters removed by `String.prototype.trim` (the ASCII
ones, which are the only ones occurring in the modelled corpus). -/
def isWs (c : Char) : Bool :=
  c = ' ' || c = '\n' || c = '\t' || c = '\r'

/-- `s.trim()`: drop whitespace from both ends. -/
def trim (s : Txt) : Txt :=
  ((s.dropWhile isWs).reverse.dropWhile isWs).reverse

/-- `s.toLowerCase()` (ASCII case folding). -/
def toLower (s : Txt) : Txt :=
  s.map Char.toLower

/-- `s.split(' ')`: split on every single space, keeping empty pieces. -/
def splitSp (s : Txt) : List Txt :=
  s.splitOn ' '

/-- Boolean prefix test (`t` starts the list `s`). -/
def isPrefixOfB : Txt → Txt → Bool
  | [], _ => true
  | _ :: _, [] => false
  | a :: as, b :: bs => a = b && isPrefixOfB as bs

/-- `s.includes(t)` for a multi-character search string `t`: `t` occurs
contiguously somewhere in `s`. -/
def includes (s t : Txt) : Bool :=
  match s with
  | [] => t.isEmpty
  | _ :: rest => isPrefixOfB t s || includes rest t

/-- `s.includes(c)` for a single-character search string. -/
def includesC (s : Txt) (c : Char) : Bool :=
  s.contains c

/-- `s.substring(a, b)`: clamp both arguments into `[0, length]`, swap
them when out of order, and return the slice. -/
def substring (s : Txt) (a b : ℤ) : Txt :=
  let n : ℤ := s.length
  let a' := (min (max a 0) n).toNat
  let b' := (min (max b 0) n).toNat
  (s.drop (min a' b')).take (max a' b' - min a' b')

/-- `s.indexOf(c, from)`: index of the first occurrence of the character
`c` at position `≥ max from 0`, or `-1` when there is none.  A negative
`from` is treated as `0`, exactly as in JS. -/
def indexOfFrom (s : Txt) (c : Char) (f : ℤ) : ℤ :=
  match (s.drop f.toNat).findIdx? (· = c) with
  | some j => (f.toNat : ℤ) + j
  | none => -1

theorem indexOfFrom_ge {s : Txt} {c : Char} {f r : ℤ}
    (h : indexOfFrom s c f = r) (hr : r ≠ -1) : f ≤ r := by
  unfold indexOfFrom at h
  cases hfind : (s.drop f.toNat).findIdx? (· = c) with
  | none => rw [hfind] at h; exact absurd h.symm hr
  | some j =>
      rw [hfind] at h
      have : (f.toNat : ℤ) + j = r := h
      have hf : f ≤ (f.toNat : ℤ) := Int.self_le_toNat f
      omega

end JsStr

namespace Segmenter

/-- The cut position of one window: `end = start + maxChunkSize`,
moved to just after the first `'.'` (else the first `'\n'`) found from
`end - lookback` that lies in `(start, end + lookback)`, provided the
hard boundary falls inside the text. -/
def winEnd (text : Txt) (maxLen lookback start : ℤ) : ℤ :=
  let e0 := start + maxLen
  if e0 < (text.length : ℤ) then
    let np := JsStr.indexOfFrom text '.' (e0 - lookback)
    let nn := JsStr.indexOfFrom text '\n' (e0 - lookback)
    if np > start ∧ np < e0 + lookback then np + 1
    else if nn > start ∧ nn < e0 + lookback then nn + 1
    else e0
  else e0

/-- The window-advancing loop shared by the two `splitIntoChunks`
re-implementations (`ragService.js` lines 186–225 with `lookback = 50`,
`src/unnamed/part_006` lines 169–198 with `lookback = 100`).  It returns
the list of raw `(start, end)` windows the loop walks through; the JS
loop is not structurally terminating, so the model takes explicit fuel
and returns `none` when the fuel runs out.  One iteration computes the
cut with `winEnd`, then `start = end - overlap`, breaking when
`start >= text.length`. -/
def windowsGo (text : Txt) (maxLen overlap lookback : ℤ) :
    ℕ → ℤ → Option (List (ℤ × ℤ))
  | 0, start => if start < (text.length : ℤ) then none else some []
  | fuel + 1, start =>
    if start < (text.length : ℤ) then
      let e := winEnd text maxLen lookback start
      let s2 := e - overlap
      if (text.length : ℤ) ≤ s2 then some [(start, e)]
      else (windowsGo text maxLen overlap lookback fuel s2).map ((start, e) :: ·)
    else some []

theorem windowsGo_zero (text : Txt) (maxLen overlap lookback start : ℤ) :
    windowsGo text maxLen overlap lookback 0 start =
      if start < (text.length : ℤ) then none else some [] := rfl

theorem windowsGo_succ (text : Txt) (maxLen overlap lookback : ℤ) (fuel : ℕ)
    (start : ℤ) :
    windowsGo text maxLen overlap lookback (fuel + 1) start =
      if start < (text.length : ℤ) then
        let e := winEnd text maxLen lookback start
        let s2 := e - overlap
        if (text.length : ℤ) ≤ s2 then some [(start, e)]
        else (windowsGo text maxLen overlap lookback fuel s2).map ((start, e) :: ·)
      else some [] := rfl

/-- Wherever the sentence-boundary search moves the cut, it cannot move
it further back than `lookback - 1` characters before the hard
boundary (the search starts at `end - lookback`). -/
theorem winEnd_ge (text : Txt) (maxLen lookback start : ℤ)
    (hst : 0 ≤ start) (hlb : 0 < lookback) :
    start + maxLen - lookback + 1 ≤ winEnd text maxLen lookback start := by
  unfold winEnd
  dsimp only
  by_cases h0 : start + maxLen < (text.length : ℤ)
  · rw [if_pos h0]
    by_cases hnp : JsStr.indexOfFrom text '.' (start + maxLen - lookback) > start ∧
        JsStr.indexOfFrom text '.' (start + maxLen - lookback) < start + maxLen + lookback
    · rw [if_pos hnp]
      have := JsStr.indexOfFrom_ge
        (rfl : JsStr.indexOfFrom text '.' (start + maxLen - lookback) = _)
        (by omega)
      omega
    · rw [if_neg hnp]
      by_cases hnn : JsStr.indexOfFrom text '\n' (start + maxLen - lookback) > start ∧
          JsStr.indexOfFrom text '\n' (start + maxLen - lookback) < start + maxLen + lookback
      · rw [if_pos hnn]
        have := JsStr.indexOfFrom_ge
          (rfl : JsStr.indexOfFrom text '\n' (start + maxLen - lookback) = _)
          (by omega)
        omega
      · rw [if_neg hnn]
        omega
  · rw [if_neg h0]
    omega

/-- The loop terminates on this input: some amount of fuel suffices. -/
def Terminates (text : Txt) (maxLen overlap lookback : ℤ) : Prop :=
  ∃ fuel, (windowsGo text maxLen overlap lookback fuel 0).isSome

/-- The raw (untrimmed, unfiltered) substring of a window. -/
def rawChunk (text : Txt) (w : ℤ × ℤ) : Txt :=
  JsStr.substring text w.1 w.2

/-- A let-free unfolding of one loop iteration. -/
theorem windowsGo_step (text : Txt) (maxLen overlap lookback : ℤ) (fuel : ℕ)
    (start : ℤ) :
    windowsGo text maxLen overlap lookback (fuel + 1) start =
      if start < (text.length : ℤ) then
        if (text.length : ℤ) ≤ winEnd text maxLen lookback start - overlap then
          some [(start, winEnd text maxLen lookback start)]
        else
          (windowsGo text maxLen overlap lookback fuel
              (winEnd text maxLen lookback start - overlap)).map
            ((start, winEnd text maxLen lookback start) :: ·)
      else some [] := rfl

/-- Loop invariant: every produced window starts at a non-negative
position and spans at least `overlap + 2` characters; consecutive
windows are linked by `next.start = previous.end - overlap`; and the
first window starts at the loop's entry position. -/
theorem windowsGo_chain (text : Txt) (maxLen overlap lookback : ℤ)
    (hlb : 0 < lookback) (hg : overlap + lookback < maxLen) :
    ∀ (fuel : ℕ) (start : ℤ) (ws : List (ℤ × ℤ)),
      0 ≤ start →
      windowsGo text maxLen overlap lookback fuel start = some ws →
      (∀ w ∈ ws, 0 ≤ w.1 ∧ w.1 + overlap + 2 ≤ w.2) ∧
      ws.Chain' (fun w v => v.1 = w.2 - overlap) ∧
      (∀ w, ws.head? = some w → w.1 = start) := by
  intro fuel
  induction fuel with
  | zero =>
    intro start ws hst h
    rw [windowsGo_zero] at h
    by_cases hlt : start < (text.length : ℤ)
    · rw [if_pos hlt] at h
      exact absurd h (by simp)
    · rw [if_neg hlt] at h
      obtain rfl : ([] : List (ℤ × ℤ)) = ws := Option.some.inj h
      exact ⟨by simp, by simp, by simp⟩
  | succ fuel ih =>
    intro start ws hst h
    rw [windowsGo_step] at h
    by_cases hlt : start < (text.length : ℤ)
    · rw [if_pos hlt] at h
      have hge : start + overlap + 2 ≤ winEnd text maxLen lookback start := by
        have := winEnd_ge text maxLen lookback start hst hlb
        omega
      by_cases hbrk : (text.length : ℤ) ≤ winEnd text maxLen lookback start - overlap
      · rw [if_pos hbrk] at h
        obtain rfl : [(start, winEnd text maxLen lookback start)] = ws :=
          Option.some.inj h
        refine ⟨?_, List.chain'_singleton _, ?_⟩
        · intro w hw
          rw [List.mem_singleton] at hw
          subst hw
          exact ⟨hst, hge⟩
        · intro w hw
          obtain rfl : (start, winEnd text maxLen lookback start) = w :=
            Option.some.inj hw
          rfl
      · rw [if_neg hbrk] at h
        cases hrec : windowsGo text maxLen overlap lookback fuel
            (winEnd text maxLen lookback start - overlap) with
        | none =>
          rw [hrec] at h
          exact absurd h (by simp)
        | some rest =>
          rw [hrec] at h
          obtain rfl : (start, winEnd text maxLen lookback start) :: rest = ws := by
            simpa using h
          obtain ⟨hmem, hchain, hhead⟩ :=
            ih (winEnd text maxLen lookback start - overlap) rest (by omega) hrec
          refine ⟨?_, ?_, ?_⟩
          · intro w hw
            rcases List.mem_cons.mp hw with rfl | hw
            · exact ⟨hst, hge⟩
            · exact hmem w hw
          · refine List.chain'_cons'.mpr ⟨?_, hchain⟩
            intro v hv
            exact hhead v hv
          · intro w hw
            obtain rfl : (start, winEnd text maxLen lookback start) = w :=
              Option.some.inj hw
            rfl
    · rw [if_neg hlt] at h
      obtain rfl : ([] : List (ℤ × ℤ)) = ws := Option.some.inj h
      exact ⟨by simp, by simp, by simp⟩

/-- Under the lookback-aware guard `overlap + lookback < maxLen` the
loop start advances by at least two per iteration, so `text.length`
steps of fuel always suffice. -/
theorem windowsGo_isSome (text : Txt) (maxLen overlap lookback : ℤ)
    (hlb : 0 < lookback) (hg : overlap + lookback < maxLen) :
    ∀ (fuel : ℕ) (start : ℤ), 0 ≤ start →
      (text.length : ℤ) - start ≤ 2 * fuel →
      (windowsGo text maxLen overlap lookback fuel start).isSome := by
  intro fuel
  induction fuel with
  | zero =>
    intro start hst hfu
    rw [windowsGo_zero, if_neg (by omega)]
    rfl
  | succ fuel ih =>
    intro start hst hfu
    rw [windowsGo_step]
    by_cases hlt : start < (text.length : ℤ)
    · rw [if_pos hlt]
      have hge : start + overlap + 2 ≤ winEnd text maxLen lookback start := by
        have := winEnd_ge text maxLen lookback start hst hlb
        omega
      by_cases hbrk : (text.length : ℤ) ≤ winEnd text maxLen lookback start - overlap
      · rw [if_pos hbrk]
        rfl
      · rw [if_neg hbrk]
        have hrec := ih (winEnd text maxLen lookback start - overlap) (by omega)
          (by push_cast at hfu ⊢; omega)
        cases hx : windowsGo text maxLen overlap lookback fuel
            (winEnd text maxLen lookback start - overlap) with
        | none => rw [hx] at hrec; exact absurd hrec (by simp)
        | some rest => rfl
    · rw [if_neg hlt]
      rfl

end Segmenter

namespace RagService

/-- The chunk-quality test of `ragService.js` `splitIntoChunks`
(lines 210–217): meaningful length and no boilerplate markers. -/
def chunkKeep (c : Txt) : Bool :=
  (30 < c.length && c.length < 1000) &&
  !(JsStr.includesC c '©' || JsStr.includes c "ISBN".toList ||
    JsStr.includes c "Publisher:".toList || JsStr.includes c "Notion Press".toList ||
    JsStr.includes c "VIRGO.".toList || JsStr.includes c "INDEX".toList)

/-- `ragService.js` `splitIntoChunks(text, maxChunkSize, overlap)`
(lines 186–225): run the window loop (lookback 50), trim each window's
substring and keep it when `chunkKeep` holds.  Fuel `text.length + 1` is
sufficient for the configurations the service uses (proved below). -/
def splitIntoChunks (text : Txt) (maxLen overlap : ℤ) : List Txt :=
  ((Segmenter.windowsGo text maxLen overlap 50 (text.length + 1) 0).getD []).filterMap
    fun w =>
      let c := JsStr.trim (Segmenter.rawChunk text w)
      if chunkKeep c then some c else none

end RagService

namespace P6

/-- `src/unnamed/part_006` `splitIntoChunks` (lines 169–198): window loop
with lookback 100, keeping trimmed chunks longer than 50 characters. -/
def splitIntoChunks (text : Txt) (maxLen overlap : ℤ) : List Txt :=
  ((Segmenter.windowsGo text maxLen overlap 100 (text.length + 1) 0).getD []).filterMap
    fun w =>
      let c := JsStr.trim (Segmenter.rawChunk text w)
      if 50 < c.length then some c else none

end P6

example :
    RagService.splitIntoChunks (List.replicate 60 'a') 500 100 =
      [List.replicate 60 'a'] := by decide

example :
    RagService.splitIntoChunks
      (List.replicate 39 'X' ++ [' '] ++ List.replicate 61 'Y') 40 10 =
      [List.replicate 39 'X',
       List.replicate 9 'X' ++ [' '] ++ List.replicate 30 'Y',
       List.replicate 40 'Y'] := by decide

/-- One scored entry of the similarity engine
(`{ index, similarity, chunk }` pushed in `findSimilarChunks`). -/
structure Entry where
  index : ℕ
  similarity : ℚ
  chunk : Txt
  deriving DecidableEq

/-- One element of the final filtered result set of `searchKnowledge`
(`{ content, similarity, relevance }`).  `relevance` is `none` when the
JS computation produces `NaN` (division `0 / 0`). -/
structure FinalChunk where
  content : Txt
  similarity : ℚ
  relevance : Option ℚ
  deriving DecidableEq

namespace RagService

/-- `cosineSimilarity(vecA, vecB)` (lines 115–138): `0` on length
mismatch, `0` when either norm is `0`, else `dot / (normA * normB)`.
`Math.sqrt` is the abstract parameter `sqrtFn`; the JS code compares the
square roots (not the squared norms) against `0`, and so does the model. -/
def cosineSimilarity (sqrtFn : ℚ → ℚ) (a b : List ℚ) : ℚ :=
  if a.length ≠ b.length then 0
  else
    let d := (List.zipWith qmul a b).foldl qadd 0
    let na := sqrtFn ((List.zipWith qmul a a).foldl qadd 0)
    let nb := sqrtFn ((List.zipWith qmul b b).foldl qadd 0)
    if na = 0 ∨ nb = 0 then 0 else qdiv d (qmul na nb)

/-- Stable insertion of an entry into a list sorted by descending
similarity: the new element goes before the first element whose
similarity does not exceed it.  Together with `sortDesc` this models
`Array.prototype.sort` with comparator `(a, b) => b.similarity -
a.similarity`, which ES2019 requires to be stable. -/
def insertDesc (x : Entry) : List Entry → List Entry
  | [] => [x]
  | y :: ys => if y.similarity ≤ x.similarity then x :: y :: ys else y :: insertDesc x ys

/-- Stable sort by descending similarity (see `insertDesc`). -/
def sortDesc : List Entry → List Entry
  | [] => []
  | x :: xs => insertDesc x (sortDesc xs)

/-- `findSimilarChunks` of `ragService.js` (lines 72–113), after the
query embedding has been computed: score every corpus embedding, keep
entries with similarity above the `0.2` floor, sort descending, take the
top `topK`. -/
def findSimilarChunks (sqrtFn : ℚ → ℚ) (queryVector : List ℚ)
    (chunks : List Txt) (embeddings : List (List ℚ)) (topK : ℕ) : List Entry :=
  let entries := (List.range embeddings.length).map fun i =>
    { index := i
      similarity := cosineSimilarity sqrtFn queryVector (embeddings.getD i [])
      chunk := chunks.getD i [] : Entry }
  let similarities := entries.filter fun e => mkRat 1 5 < e.similarity
  (sortDesc similarities).take topK

/-- `calculateRelevance(chunk, query)` (lines 286–297): the fraction of
lower-cased query terms longer than two characters that occur in the
lower-cased chunk.  When no query term is longer than two characters the
JS division is `0 / 0 = NaN`, modelled as `none`. -/
def calculateRelevance (chunk query : Txt) : Option ℚ :=
  let ts := (JsStr.splitSp (JsStr.toLower query)).filter fun t => 2 < t.length
  if ts.isEmpty then none
  else some (qdiv (ts.countP fun t => JsStr.includes (JsStr.toLower chunk) t : ℚ) (ts.length : ℚ))

end RagService

/-- The mutable state of a `LightweightRAGService` instance: the corpus
(`this.chunks`, `this.embeddings`) and the query cache (`this.cache`,
a map from normalized query to final result list, modelled as an
association list whose first matching key wins — `Map.set`/`Map.get`
lookup semantics). -/
structure RAGState where
  chunks : List Txt
  embeddings : List (List ℚ)
  cache : List (Txt × List FinalChunk)
  deriving DecidableEq

/-- The external collaborators of one run, as a record of oracles:
the two text-extraction strategies (`none` = the call threw), the
embedding backend of `createEmbeddings` (`none` = the backend threw),
the per-query embedder, and `Math.sqrt`. -/
structure Env where
  pdftotext : Option Txt
  fileread : Option Txt
  pdfExists : Bool
  embed : List Txt → Option (List (List ℚ))
  embedOne : Txt → List ℚ
  sqrtFn : ℚ → ℚ

/-- The text extraction attempt shared by every `processPDF` variant:
`pdftotext` output when that command succeeds, otherwise the raw file
read, otherwise nothing. -/
def Env.extractedText (env : Env) : Option Txt :=
  match env.pdftotext with
  | some t => some t
  | none => env.fileread

/-- Result record of a successful `processPDF`
(`{ chunks, embeddings, totalTextLength }`). -/
structure RagResult where
  chunks : ℕ
  embeddings : ℕ
  totalTextLength : ℕ
  deriving DecidableEq

namespace RagService

/-- `searchKnowledge(query, topK)` (lines 227–284): throw when no corpus
is loaded; otherwise serve from the cache under the normalized key, or
rank, quality-filter, truncate to three, attach relevance, store in the
cache and return.  Errors are the thrown messages; on error the state is
unchanged (the JS method throws before any mutation). -/
def searchKnowledge (env : Env) (s : RAGState) (query : Txt) (topK : ℕ) :
    Except Txt (List FinalChunk × RAGState) :=
  if s.chunks.isEmpty then
    .error "No PDF chunks available. Please process a PDF first.".toList
  else
    let cacheKey := JsStr.trim (JsStr.toLower query)
    match s.cache.find? fun kv => kv.1 = cacheKey with
    | some kv => .ok (kv.2, s)
    | none =>
      let similarChunks :=
        findSimilarChunks env.sqrtFn (env.embedOne query) s.chunks s.embeddings topK
      let relevantChunks := similarChunks.filter fun it =>
        let lowerChunk := JsStr.toLower it.chunk
        let lowerQuery := JsStr.toLower query
        let hasQueryTerms :=
          (JsStr.splitSp lowerQuery).any fun t =>
            JsStr.includes lowerChunk t && 2 < t.length
        let isLowQuality :=
          JsStr.includesC it.chunk '©' || JsStr.includes it.chunk "ISBN".toList ||
          JsStr.includes it.chunk "Publisher:".toList ||
          JsStr.includes it.chunk "VIRGO.".toList ||
          JsStr.includes it.chunk "INDEX".toList ||
          JsStr.includes it.chunk "Chapter".toList || it.chunk.length < 50
        !isLowQuality && (hasQueryTerms || decide (mkRat 3 10 < it.similarity))
      let finalChunks := (relevantChunks.take 3).map fun it =>
        { content := it.chunk
          similarity := it.similarity
          relevance := calculateRelevance it.chunk query : FinalChunk }
      .ok (finalChunks, { s with cache := (cacheKey, finalChunks) :: s.cache })

/-- `processPDF(pdfPath)` of `ragService.js` (lines 140–184): extract
text (pdftotext, falling back to a raw file read; if both fail the read
exception propagates), reject empty text, split into 500/100 chunks,
embed them (a backend failure propagates), and only then publish the new
corpus.  The cache field is carried over untouched, exactly as in the
source, which never calls `clearCache` here. -/
def processPDF (env : Env) (s : RAGState) : Except Txt RagResult × RAGState :=
  match env.extractedText with
  | none => (.error "file read failed".toList, s)
  | some text =>
    if (JsStr.trim text).isEmpty then
      (.error "Failed to extract text from PDF".toList, s)
    else
      let chunks := splitIntoChunks text 500 100
      match env.embed chunks with
      | none => (.error "embedding backend failed".toList, s)
      | some embs =>
        (.ok ⟨chunks.length, embs.length, text.length⟩,
         { chunks := chunks, embeddings := embs, cache := s.cache })

end RagService

namespace P6

/-- `findSimilarChunks` of `src/unnamed/part_006` (lines 61–96): the
naive variant — score every embedding with no similarity floor, sort
descending, take the top `topK`. -/
def findSimilarChunks (sqrtFn : ℚ → ℚ) (queryVector : List ℚ)
    (chunks : List Txt) (embeddings : List (List ℚ)) (topK : ℕ) : List Entry :=
  let entries := (List.range embeddings.length).map fun i =>
    { index := i
      similarity := RagService.cosineSimilarity sqrtFn queryVector (embeddings.getD i [])
      chunk := chunks.getD i [] : Entry }
  (RagService.sortDesc entries).take topK

/-- `calculateRelevance` of `src/unnamed/part_006` (lines 243–254): like
the `ragService.js` version but with no length filter on the query
terms; divides by the count of all space-separated terms. -/
def calculateRelevance (chunk query : Txt) : Option ℚ :=
  let ts := JsStr.splitSp (JsStr.toLower query)
  if ts.isEmpty then none
  else some (qdiv (ts.countP fun t => JsStr.includes (JsStr.toLower chunk) t : ℚ) (ts.length : ℚ))

end P6

/-- The process-wide fallback store (`global.bnnChunks`,
`global.bnnEmbeddings`). -/
structure GlobalStore where
  bnnChunks : List Txt
  bnnEmbeddings : List (List ℚ)
  deriving DecidableEq

/-- Combined state seen by `bnnService.js`: the RAG service instance and
the global fallback store. -/
structure BNNState where
  rag : RAGState
  glob : GlobalStore
  deriving DecidableEq

/-- Provenance tag of a `searchBNNKnowledge` result (`source` field). -/
inductive Source where
  | rag_service
  | global_chunks
  | basic_knowledge
  deriving DecidableEq

/-- The `{ source, chunks, context, topSimilarity }` record returned by
`searchBNNKnowledge`. -/
structure BNNSearchOut where
  source : Source
  chunks : ℕ
  context : Txt
  topSimilarity : ℚ
  deriving DecidableEq

/-- Which fallback tiers were reached during one `searchBNNKnowledge`
call: `keywordTier` is the global-chunk keyword scan, `staticTier` the
static default knowledge. -/
structure TierTrace where
  keywordTier : Bool
  staticTier : Bool
  deriving DecidableEq

/-- Result of `loadBNNPDF`: either the idempotent short-circuit answer
(`status: 'already_processed'` with the RAG service's stored counts) or
a fresh processing result. -/
inductive LoadResult where
  | alreadyProcessed (chunks embeddings : ℕ)
  | processed (chunks embeddings totalTextLength : ℕ)
  deriving DecidableEq

namespace BnnService

/-- `splitTextIntoChunks` of `bnnService.js` (lines 204–228): split on
sentence terminators, then greedily accumulate sentences into chunks of
at most `maxChunkSize` characters (the `overlap` parameter is unused in
the source body, and is omitted here).  JS splits with the regex on
runs of terminators; splitting on each terminator character and dropping
the blank pieces — as the source's own `.filter` does — yields the same
sentence list. -/
def accChunks (maxChunkSize : ℤ) : List Txt → Txt → List Txt
  | [], cur => if 0 < cur.length then [JsStr.trim cur] else []
  | sRaw :: rest, cur =>
    let sentence := JsStr.trim sRaw
    if maxChunkSize < ((cur.length : ℤ) + sentence.length) then
      (if 0 < cur.length then [JsStr.trim cur] else []) ++
        accChunks maxChunkSize rest sentence
    else
      accChunks maxChunkSize rest
        (cur ++ (if cur.isEmpty then [] else ". ".toList) ++ sentence)

/-- See `accChunks`. -/
def splitTextIntoChunks (text : Txt) (maxChunkSize : ℤ := 1000) : List Txt :=
  let sentences :=
    (text.splitOnP fun c => c = '.' || c = '!' || c = '?').filter
      fun sp => !(JsStr.trim sp).isEmpty
  accChunks maxChunkSize sentences []

/-- `processPDF(pdfPath)` of `bnnService.js` (lines 132–201): extract
text (pdftotext, then a raw file read); when both extraction strategies
fail it returns the hard-coded mock result `{ chunks: 10, embeddings:
10, totalTextLength: 5000 }` without touching the global store; when
embedding fails the outer catch returns the mock `{ 5, 5, 1000 }`;
otherwise the first 100 chunks are embedded and published to the global
store (the ChromaDB write failure is caught and ignored, so it does not
appear in the model). -/
def processPDF (env : Env) (g : GlobalStore) : RagResult × GlobalStore :=
  match env.extractedText with
  | none => (⟨10, 10, 5000⟩, g)
  | some text =>
    let chunks := splitTextIntoChunks text 1000
    let limited := chunks.take 100
    match env.embed limited with
    | none => (⟨5, 5, 1000⟩, g)
    | some embs =>
      (⟨limited.length, embs.length, text.length⟩,
       { bnnChunks := limited, bnnEmbeddings := embs })

/-- `isBNNPDFProcessed` (lines 715–738): true when the RAG service has
chunks loaded, or, as a fallback, when the global store has chunks. -/
def isBNNPDFProcessed (s : BNNState) : Bool :=
  0 < s.rag.chunks.length || !s.glob.bnnChunks.isEmpty

/-- The private `processPDF` of the RAG-backed half of `bnnService.js`
(lines 771–837): check the PDF exists, extract text, reject empty text,
delegate to `ragService.processPDF`, and copy the fresh corpus into the
global store.  Failures propagate as exceptions. -/
def processPDFRag (env : Env) (s : BNNState) : Except Txt (RagResult × BNNState) :=
  if !env.pdfExists then .error "BNN PDF not found".toList
  else
    match env.extractedText with
    | none => .error "file read failed".toList
    | some text =>
      if (JsStr.trim text).isEmpty then
        .error "Failed to extract text from PDF".toList
      else
        match RagService.processPDF env s.rag with
        | (.error e, _) => .error e
        | (.ok res, rag2) =>
          .ok (res,
               { rag := rag2
                 glob := { bnnChunks := rag2.chunks, bnnEmbeddings := rag2.embeddings } })

/-- `loadBNNPDF` (lines 743–766): when `isBNNPDFProcessed` holds, return
`status: 'already_processed'` with the RAG service's current counts and
do nothing else; otherwise run the processing pipeline.  The boolean in
the result records whether the processing path (and with it the
embedding backend) was invoked at all. -/
def loadBNNPDF (env : Env) (s : BNNState) :
    Except Txt (LoadResult × BNNState × Bool) :=
  if isBNNPDFProcessed s then
    .ok (.alreadyProcessed s.rag.chunks.length s.rag.embeddings.length, s, false)
  else
    match processPDFRag env s with
    | .error e => .error e
    | .ok (res, s2) =>
      .ok (.processed res.chunks res.embeddings res.totalTextLength, s2, true)

/-- Chunk texts joined with the `'\n\n---\n\n'` separator. -/
def joinSep (l : List Txt) : Txt :=
  List.intercalate "\n\n---\n\n".toList l

/-- The tier-2 keyword scan over the global store (lines 876–880):
chunks containing any space-separated query term, first ten. -/
def keywordMatches (g : GlobalStore) (query : Txt) : List Txt :=
  (g.bnnChunks.filter fun chunk =>
    (JsStr.splitSp (JsStr.toLower query)).any fun term =>
      JsStr.includes (JsStr.toLower chunk) term).take 10

/-- `searchBNNKnowledge(query, kundliData)` (lines 842–906): try the RAG
service first and return its result tagged `rag_service` when non-empty;
on an empty result or a RAG exception fall back to the keyword scan over
the global chunks (tagged `global_chunks`, fixed similarity `0.5`); when
that also yields nothing return the static default knowledge (tagged
`basic_knowledge`).  The returned `TierTrace` records which fallback
tiers were reached. -/
def searchBNNKnowledge (env : Env) (s : BNNState) (query : Txt) :
    Except Txt (BNNSearchOut × BNNState × TierTrace) :=
  let fallback : BNNState → Except Txt (BNNSearchOut × BNNState × TierTrace) :=
    fun s2 =>
      let ms := keywordMatches s2.glob query
      if !ms.isEmpty then
        .ok ({ source := .global_chunks
               chunks := ms.length
               context := joinSep ms
               topSimilarity := mkRat 1 2 }, s2,
             { keywordTier := true, staticTier := false })
      else
        .ok ({ source := .basic_knowledge
               chunks := 0
               context := "Basic BNN astrology knowledge".toList
               topSimilarity := 0 }, s2,
             { keywordTier := true, staticTier := true })
  match RagService.searchKnowledge env s.rag query 5 with
  | .ok (r, rag2) =>
    if !r.isEmpty then
      .ok ({ source := .rag_service
             chunks := r.length
             context := joinSep (r.map (·.content))
             topSimilarity := (r.head?.elim 0 (·.similarity)) },
           { s with rag := rag2 },
           { keywordTier := false, staticTier := false })
    else fallback { s with rag := rag2 }
  | .error _ => fallback s

end BnnService

namespace RagService

/-- Entries sorted by weakly descending similarity. -/
abbrev SimSorted (l : List Entry) : Prop :=
  l.Pairwise fun a b => b.similarity ≤ a.similarity

theorem insertDesc_nil (x : Entry) : insertDesc x [] = [x] := rfl

theorem insertDesc_cons (x y : Entry) (ys : List Entry) :
    insertDesc x (y :: ys) =
      if y.similarity ≤ x.similarity then x :: y :: ys else y :: insertDesc x ys := rfl

theorem mem_insertDesc {x z : Entry} :
    ∀ {l : List Entry}, z ∈ insertDesc x l ↔ z = x ∨ z ∈ l
  | [] => by simp [insertDesc]
  | y :: ys => by
    by_cases h : y.similarity ≤ x.similarity
    · simp [insertDesc, h]
    · simp only [insertDesc, if_neg h, List.mem_cons, mem_insertDesc (l := ys)]
      tauto

theorem mem_sortDesc {z : Entry} :
    ∀ {l : List Entry}, z ∈ sortDesc l ↔ z ∈ l
  | [] => Iff.rfl
  | y :: ys => by
    simp only [sortDesc, mem_insertDesc, List.mem_cons, mem_sortDesc (l := ys)]

theorem simSorted_insertDesc {x : Entry} :
    ∀ {l : List Entry}, SimSorted l → SimSorted (insertDesc x l)
  | [], _ => by simp [insertDesc, SimSorted]
  | y :: ys, h => by
    rcases List.pairwise_cons.mp h with ⟨hy, hys⟩
    by_cases hxy : y.similarity ≤ x.similarity
    · rw [insertDesc, if_pos hxy]
      refine List.pairwise_cons.mpr ⟨?_, h⟩
      intro z hz
      rcases List.mem_cons.mp hz with rfl | hz
      · exact hxy
      · exact le_trans (hy z hz) hxy
    · rw [insertDesc, if_neg hxy]
      refine List.pairwise_cons.mpr ⟨?_, simSorted_insertDesc hys⟩
      intro z hz
      rcases mem_insertDesc.mp hz with rfl | hz
      · exact le_of_lt (lt_of_not_le hxy)
      · exact hy z hz

theorem simSorted_sortDesc : ∀ l : List Entry, SimSorted (sortDesc l)
  | [] => List.Pairwise.nil
  | _ :: ys => simSorted_insertDesc (simSorted_sortDesc ys)

/-- The order the claims state for ranking output: strictly greater
similarity first, ties broken by the original chunk index. -/
def RankOrder (a b : Entry) : Prop :=
  b.similarity < a.similarity ∨ (a.similarity = b.similarity ∧ a.index < b.index)

theorem insertDesc_rankOrder {x : Entry} :
    ∀ {l : List Entry}, l.Pairwise RankOrder → SimSorted l →
      (∀ y ∈ l, x.index < y.index) → (insertDesc x l).Pairwise RankOrder
  | [], _, _, _ => by simp [insertDesc, List.pairwise_cons]
  | y :: ys, hR, hS, hidx => by
    rcases List.pairwise_cons.mp hR with ⟨hRy, hRys⟩
    rcases List.pairwise_cons.mp hS with ⟨hSy, hSys⟩
    by_cases hxy : y.similarity ≤ x.similarity
    · rw [insertDesc, if_pos hxy]
      refine List.pairwise_cons.mpr ⟨?_, hR⟩
      intro z hz
      have hzx : z.similarity ≤ x.similarity := by
        rcases List.mem_cons.mp hz with rfl | hz
        · exact hxy
        · exact le_trans (hSy z hz) hxy
      rcases lt_or_eq_of_le hzx with hlt | heq
      · exact Or.inl hlt
      · exact Or.inr ⟨heq.symm, hidx z hz⟩
    · rw [insertDesc, if_neg hxy]
      refine List.pairwise_cons.mpr ⟨?_, ?_⟩
      · intro z hz
        rcases mem_insertDesc.mp hz with rfl | hz
        · exact Or.inl (lt_of_not_le hxy)
        · exact hRy z hz
      · exact insertDesc_rankOrder hRys hSys fun z hz => hidx z (List.mem_cons_of_mem y hz)

theorem sortDesc_rankOrder :
    ∀ {l : List Entry}, l.Pairwise (fun a b => a.index < b.index) →
      (sortDesc l).Pairwise RankOrder
  | [], _ => List.Pairwise.nil
  | y :: ys, h => by
    rcases List.pairwise_cons.mp h with ⟨hy, hys⟩
    exact insertDesc_rankOrder (sortDesc_rankOrder hys) (simSorted_sortDesc ys)
      fun z hz => hy z (mem_sortDesc.mp hz)

theorem filter_insertDesc (p : Entry → Bool) (x : Entry) :
    ∀ {l : List Entry}, SimSorted l →
      (insertDesc x l).filter p =
        if p x then insertDesc x (l.filter p) else l.filter p
  | [], _ => by
    by_cases hx : p x <;> simp [insertDesc, hx]
  | y :: ys, h => by
    rcases List.pairwise_cons.mp h with ⟨hy, hys⟩
    by_cases hxy : y.similarity ≤ x.similarity
    · rw [insertDesc_cons, if_pos hxy]
      by_cases hx : p x
      · rw [if_pos hx, List.filter_cons_of_pos hx]
        by_cases hpy : p y
        · rw [List.filter_cons_of_pos hpy, insertDesc_cons, if_pos hxy]
        · rw [List.filter_cons_of_neg hpy]
          cases hfil : ys.filter p with
          | nil => rw [insertDesc_nil]
          | cons z zs =>
            have hz : z ∈ ys.filter p := by rw [hfil]; exact List.mem_cons_self z zs
            have hzy : z.similarity ≤ y.similarity :=
              hy z (List.mem_of_mem_filter hz)
            rw [insertDesc_cons, if_pos (le_trans hzy hxy)]
      · rw [if_neg hx, List.filter_cons_of_neg hx]
    · rw [insertDesc_cons, if_neg hxy]
      by_cases hpy : p y
      · rw [List.filter_cons_of_pos hpy, List.filter_cons_of_pos hpy,
          filter_insertDesc p x hys]
        by_cases hx : p x
        · rw [if_pos hx, if_pos hx, insertDesc_cons, if_neg hxy]
        · rw [if_neg hx, if_neg hx]
      · rw [List.filter_cons_of_neg hpy, List.filter_cons_of_neg hpy,
          filter_insertDesc p x hys]

theorem sortDesc_filter (p : Entry → Bool) :
    ∀ l : List Entry, sortDesc (l.filter p) = (sortDesc l).filter p
  | [] => rfl
  | y :: ys => by
    by_cases hpy : p y
    · rw [List.filter_cons_of_pos hpy, sortDesc, sortDesc,
        filter_insertDesc p y (simSorted_sortDesc ys), if_pos hpy,
        sortDesc_filter p ys]
    · rw [List.filter_cons_of_neg hpy, sortDesc,
        filter_insertDesc p y (simSorted_sortDesc ys), if_neg hpy,
        sortDesc_filter p ys]

/-- On a descending-sorted list, filtering by a similarity floor is the
same as taking the leading run above the floor. -/
theorem filter_floor_eq_takeWhile (c : ℚ) :
    ∀ {l : List Entry}, SimSorted l →
      l.filter (fun e => decide (c < e.similarity)) =
        l.takeWhile (fun e => decide (c < e.similarity))
  | [], _ => rfl
  | y :: ys, h => by
    rcases List.pairwise_cons.mp h with ⟨hy, hys⟩
    by_cases hcy : c < y.similarity
    · rw [List.filter_cons_of_pos (by simpa using hcy),
        List.takeWhile_cons_of_pos (by simpa using hcy),
        filter_floor_eq_takeWhile c hys]
    · rw [List.filter_cons_of_neg (by simpa using hcy),
        List.takeWhile_cons_of_neg (by simpa using hcy)]
      refine List.filter_eq_nil_iff.mpr fun z hz => by
        have : z.similarity ≤ y.similarity := hy z hz
        simp only [decide_eq_true_eq]
        intro hc
        exact hcy (lt_of_lt_of_le hc this)

theorem takeWhile_take (p : Entry → Bool) :
    ∀ (l : List Entry) (k : ℕ), (l.take k).takeWhile p = (l.takeWhile p).take k
  | [], k => by simp
  | x :: xs, 0 => by simp
  | x :: xs, k + 1 => by
    by_cases h : p x <;> simp [h, takeWhile_take p xs k]

/-- The index fields of the scored entry list are strictly increasing. -/
theorem entries_index_pairwise (f : ℕ → Entry) (n : ℕ)
    (hf : ∀ i, (f i).index = i) :
    ((List.range n).map f).Pairwise fun a b => a.index < b.index :=
  (List.pairwise_lt_range n).map f (by intro a b hab; rw [hf a, hf b]; exact hab)

end RagService

/-- C6: dropping the below-floor chunks before sorting never changes the
relative order or membership of the retained entries: the optimized
`findSimilarChunks` of `ragService.js` returns exactly the naive
`part_006` ranking restricted to the entries whose similarity exceeds
the `0.2` floor. -/
theorem findSimilarChunks_eq_naive_above_floor (sqrtFn : ℚ → ℚ)
    (queryVector : List ℚ) (chunks : List Txt) (embeddings : List (List ℚ))
    (topK : ℕ) :
    RagService.findSimilarChunks sqrtFn queryVector chunks embeddings topK =
      (P6.findSimilarChunks sqrtFn queryVector chunks embeddings topK).filter
        fun e => decide (mkRat 1 5 < e.similarity) := by
  unfold RagService.findSimilarChunks P6.findSimilarChunks
  dsimp only
  rw [RagService.sortDesc_filter,
    RagService.filter_floor_eq_takeWhile (mkRat 1 5) (RagService.simSorted_sortDesc _),
    ← RagService.takeWhile_take,
    ← RagService.filter_floor_eq_takeWhile (mkRat 1 5)
      ((RagService.simSorted_sortDesc _).sublist (List.take_sublist _ _))]

/-- C9: the ranking operation returns at most `topK` entries, sorted by
strictly descending similarity with ties broken by the original chunk
index (the stable sort preserves the index order of equal-similarity
entries). -/
theorem findSimilarChunks_ranking_order (sqrtFn : ℚ → ℚ)
    (queryVector : List ℚ) (chunks : List Txt) (embeddings : List (List ℚ))
    (topK : ℕ) :
    (RagService.findSimilarChunks sqrtFn queryVector chunks embeddings topK).length ≤ topK ∧
    (RagService.findSimilarChunks sqrtFn queryVector chunks embeddings
      topK).Pairwise RagService.RankOrder := by
  constructor
  · exact List.length_take_le _ _
  · unfold RagService.findSimilarChunks
    dsimp only
    exact (RagService.sortDesc_rankOrder
      ((RagService.entries_index_pairwise _ _ fun i => rfl).filter _)).sublist
      (List.take_sublist _ _)

/-- C3, counterexample: when no query term is longer than two characters
(query `"ab"`), `calculateRelevance` divides zero by zero — `NaN` in JS,
`none` in the model — so the relevance attached to a result does not lie
in `[0, 1]` for every chunk and query. -/
theorem calculateRelevance_nan_on_short_query :
    RagService.calculateRelevance "Jupiter brings career growth".toList "ab".toList
      = none := by decide

/-- C3, amended: whenever at least one query term is longer than two
characters, the relevance score exists, equals the count of such terms
occurring (case-insensitively) in the chunk divided by the count of such
terms, and lies in `[0, 1]`. -/
theorem calculateRelevance_formula (chunk query : Txt)
    (h : ((JsStr.splitSp (JsStr.toLower query)).filter fun t => 2 < t.length) ≠ []) :
    ∃ r, RagService.calculateRelevance chunk query = some r ∧
      r = (((JsStr.splitSp (JsStr.toLower query)).filter fun t => 2 < t.length).countP
            (fun t => JsStr.includes (JsStr.toLower chunk) t) : ℚ) /
          (((JsStr.splitSp (JsStr.toLower query)).filter fun t => 2 < t.length).length : ℚ) ∧
      0 ≤ r ∧ r ≤ 1 := by
  unfold RagService.calculateRelevance
  dsimp only
  rw [if_neg (by simpa [List.isEmpty_iff] using h)]
  set ts := (JsStr.splitSp (JsStr.toLower query)).filter fun t => 2 < t.length with hts
  have hlen : 0 < ts.length := List.length_pos.mpr h
  have hlenQ : (0 : ℚ) < ts.length := by exact_mod_cast hlen
  refine ⟨_, rfl, qdiv_eq _ _, ?_, ?_⟩
  · rw [qdiv_eq]
    positivity
  · rw [qdiv_eq, div_le_one hlenQ]
    exact_mod_cast ts.countP_le_length _

/-- C3, witness: for the query `"career growth"` and a chunk containing
`"career"` but not `"growth"`, the relevance is `1/2`. -/
theorem calculateRelevance_formula_witness :
    (((JsStr.splitSp (JsStr.toLower "career growth".toList)).filter
        fun t => 2 < t.length) ≠ []) ∧
    ∃ r, RagService.calculateRelevance "Jupiter rules career paths".toList
        "career growth".toList = some r ∧
      r = (((JsStr.splitSp (JsStr.toLower "career growth".toList)).filter
              fun t => 2 < t.length).countP
            (fun t => JsStr.includes (JsStr.toLower "Jupiter rules career paths".toList) t) : ℚ) /
          (((JsStr.splitSp (JsStr.toLower "career growth".toList)).filter
              fun t => 2 < t.length).length : ℚ) ∧
      0 ≤ r ∧ r ≤ 1 :=
  ⟨by decide,
   calculateRelevance_formula "Jupiter rules career paths".toList
     "career growth".toList (by decide)⟩

example :
    RagService.calculateRelevance "Jupiter rules career paths".toList
      "career growth".toList = some (mkRat 1 2) := by decide

/-- An environment in which every external collaborator fails or is
trivial: no extractable text, no PDF on disk, a failing embedding
backend, empty query embeddings, and a zero square root. -/
def trivEnv : Env where
  pdftotext := none
  fileread := none
  pdfExists := false
  embed := fun _ => none
  embedOne := fun _ => []
  sqrtFn := fun _ => 0

/-- C4: a search issued before any successful ingestion (no RAG chunks,
no global fallback chunks) returns the explicit low-confidence static
default (`basic_knowledge`, zero chunks, zero similarity) instead of
propagating the RAG service's exception. -/
theorem searchBNN_no_corpus_low_confidence (env : Env) (s : BNNState) (query : Txt)
    (hrag : s.rag.chunks = []) (hglob : s.glob.bnnChunks = []) :
    BnnService.searchBNNKnowledge env s query =
      .ok ({ source := .basic_knowledge
             chunks := 0
             context := "Basic BNN astrology knowledge".toList
             topSimilarity := 0 }, s,
           { keywordTier := true, staticTier := true }) := by
  unfold BnnService.searchBNNKnowledge
  have h1 : RagService.searchKnowledge env s.rag query 5 =
      .error "No PDF chunks available. Please process a PDF first.".toList := by
    unfold RagService.searchKnowledge
    rw [if_pos (by rw [hrag]; rfl)]
  rw [h1]
  have h2 : BnnService.keywordMatches s.glob query = [] := by
    unfold BnnService.keywordMatches
    rw [hglob]
    rfl
  simp only [h2]
  rfl

/-- C4, witness: the concrete empty state. -/
theorem searchBNN_no_corpus_low_confidence_witness :
    (⟨⟨[], [], []⟩, ⟨[], []⟩⟩ : BNNState).rag.chunks = [] ∧
    (⟨⟨[], [], []⟩, ⟨[], []⟩⟩ : BNNState).glob.bnnChunks = [] ∧
    BnnService.searchBNNKnowledge trivEnv ⟨⟨[], [], []⟩, ⟨[], []⟩⟩ "career".toList =
      .ok ({ source := .basic_knowledge
             chunks := 0
             context := "Basic BNN astrology knowledge".toList
             topSimilarity := 0 }, ⟨⟨[], [], []⟩, ⟨[], []⟩⟩,
           { keywordTier := true, staticTier := true }) :=
  ⟨rfl, rfl,
   searchBNN_no_corpus_low_confidence trivEnv ⟨⟨[], [], []⟩, ⟨[], []⟩⟩
     "career".toList rfl rfl⟩

/-- C7: when ingestion has already completed (the RAG service or the
global fallback store holds chunks), `loadBNNPDF` answers
`already_processed` with the RAG service's stored chunk and embedding
counts, leaves the state untouched, and never reaches the processing
path (so no re-embedding occurs — the final `false` is the
processing-path flag). -/
theorem loadBNNPDF_idempotent (env : Env) (s : BNNState)
    (h : s.rag.chunks ≠ [] ∨ s.glob.bnnChunks ≠ []) :
    BnnService.loadBNNPDF env s =
      .ok (.alreadyProcessed s.rag.chunks.length s.rag.embeddings.length, s, false) := by
  unfold BnnService.loadBNNPDF
  have hp : BnnService.isBNNPDFProcessed s = true := by
    unfold BnnService.isBNNPDFProcessed
    rcases h with h | h
    · have := List.length_pos.mpr h
      simp [this]
    · simp [List.isEmpty_iff, h]
  rw [if_pos hp]

/-- C7, witness: a state whose RAG service holds one chunk. -/
theorem loadBNNPDF_idempotent_witness :
    ((⟨⟨["already stored chunk".toList], [[]], []⟩, ⟨[], []⟩⟩ : BNNState).rag.chunks ≠ []
      ∨ (⟨⟨["already stored chunk".toList], [[]], []⟩, ⟨[], []⟩⟩ : BNNState).glob.bnnChunks ≠ []) ∧
    BnnService.loadBNNPDF trivEnv ⟨⟨["already stored chunk".toList], [[]], []⟩, ⟨[], []⟩⟩ =
      .ok (.alreadyProcessed 1 1, ⟨⟨["already stored chunk".toList], [[]], []⟩, ⟨[], []⟩⟩, false) :=
  ⟨Or.inl (by decide),
   loadBNNPDF_idempotent trivEnv ⟨⟨["already stored chunk".toList], [[]], []⟩, ⟨[], []⟩⟩
     (Or.inl (by decide))⟩

/-- The result `searchBNNKnowledge` builds from a non-empty tier-1
answer `r`. -/
def tierOneOut (r : List FinalChunk) : BNNSearchOut where
  source := .rag_service
  chunks := r.length
  context := BnnService.joinSep (r.map (·.content))
  topSimilarity := r.head?.elim 0 (·.similarity)

/-- The result `searchBNNKnowledge` builds from the tier-2 keyword scan. -/
def tierTwoOut (ms : List Txt) : BNNSearchOut where
  source := .global_chunks
  chunks := ms.length
  context := BnnService.joinSep ms
  topSimilarity := mkRat 1 2

/-- The tier-3 static default result. -/
def tierThreeOut : BNNSearchOut where
  source := .basic_knowledge
  chunks := 0
  context := "Basic BNN astrology knowledge".toList
  topSimilarity := 0

/-- C8: the fallback orchestrator evaluates its tiers in strict order.
When the indexed tier returns a non-empty result, exactly that result is
returned tagged `rag_service` and the keyword and static tiers are never
reached; when the indexed tier yields nothing (empty result or
exception), the keyword scan answers if it has matches (tagged
`global_chunks`); otherwise the static default is returned (tagged
`basic_knowledge`), so some result is always produced. -/
theorem searchBNN_tier_ordering (env : Env) (s : BNNState) (query : Txt) :
    (∀ r rag2, RagService.searchKnowledge env s.rag query 5 = .ok (r, rag2) →
      r ≠ [] →
      BnnService.searchBNNKnowledge env s query =
        .ok (tierOneOut r, { s with rag := rag2 },
             { keywordTier := false, staticTier := false })) ∧
    (∀ rag2, RagService.searchKnowledge env s.rag query 5 = .ok ([], rag2) →
      (BnnService.keywordMatches s.glob query ≠ [] →
        BnnService.searchBNNKnowledge env s query =
          .ok (tierTwoOut (BnnService.keywordMatches s.glob query),
               { s with rag := rag2 }, { keywordTier := true, staticTier := false })) ∧
      (BnnService.keywordMatches s.glob query = [] →
        BnnService.searchBNNKnowledge env s query =
          .ok (tierThreeOut, { s with rag := rag2 },
               { keywordTier := true, staticTier := true }))) ∧
    (∀ e, RagService.searchKnowledge env s.rag query 5 = .error e →
      (BnnService.keywordMatches s.glob query ≠ [] →
        BnnService.searchBNNKnowledge env s query =
          .ok (tierTwoOut (BnnService.keywordMatches s.glob query), s,
               { keywordTier := true, staticTier := false })) ∧
      (BnnService.keywordMatches s.glob query = [] →
        BnnService.searchBNNKnowledge env s query =
          .ok (tierThreeOut, s, { keywordTier := true, staticTier := true }))) ∧
    (∃ out s2 tr, BnnService.searchBNNKnowledge env s query = .ok (out, s2, tr)) := by
  refine ⟨?_, ?_, ?_, ?_⟩
  · intro r rag2 h hne
    unfold BnnService.searchBNNKnowledge
    rw [h]
    have hr : r.isEmpty = false := by simpa [List.isEmpty_iff] using hne
    simp only [hr, Bool.not_false, if_true]
    rfl
  · intro rag2 h
    refine ⟨?_, ?_⟩ <;> intro hms <;>
      · unfold BnnService.searchBNNKnowledge
        rw [h]
        first
        | (have hm : (BnnService.keywordMatches s.glob query).isEmpty = false := by
             simpa [List.isEmpty_iff] using hms
           simp only [List.isEmpty_nil, Bool.not_true, if_false, hm, Bool.not_false,
             if_true]
           rfl)
        | (have hm : (BnnService.keywordMatches s.glob query).isEmpty = true := by
             simp [hms]
           simp only [List.isEmpty_nil, Bool.not_true, if_false, hm, Bool.not_true,
             if_false]
           rfl)
  · intro e h
    refine ⟨?_, ?_⟩ <;> intro hms <;>
      · unfold BnnService.searchBNNKnowledge
        rw [h]
        first
        | (have hm : (BnnService.keywordMatches s.glob query).isEmpty = false := by
             simpa [List.isEmpty_iff] using hms
           simp only [hm, Bool.not_false, if_true]
           rfl)
        | (have hm : (BnnService.keywordMatches s.glob query).isEmpty = true := by
             simp [hms]
           simp only [hm, Bool.not_true, if_false]
           rfl)
  · cases hsk : RagService.searchKnowledge env s.rag query 5 with
    | error e =>
      unfold BnnService.searchBNNKnowledge
      rw [hsk]
      cases hms : (BnnService.keywordMatches s.glob query).isEmpty with
      | true => exact ⟨_, _, _, by simp only [hms, Bool.not_true, if_false]; rfl⟩
      | false => exact ⟨_, _, _, by simp only [hms, Bool.not_false, if_true]; rfl⟩
    | ok pr =>
      obtain ⟨r, rag2⟩ := pr
      unfold BnnService.searchBNNKnowledge
      rw [hsk]
      cases hr : r.isEmpty with
      | false => exact ⟨_, _, _, by simp only [hr, Bool.not_false, if_true]; rfl⟩
      | true =>
        cases hms : (BnnService.keywordMatches s.glob query).isEmpty with
        | true =>
          exact ⟨_, _, _, by
            simp only [hr, Bool.not_true, if_false, hms]; rfl⟩
        | false =>
          exact ⟨_, _, _, by
            simp only [hr, Bool.not_true, if_false, hms, Bool.not_false, if_true]; rfl⟩

/-- A corpus chunk for the concrete tier-ordering run. -/
def c8Chunk : Txt := "Jupiter in the tenth house brings career growth".toList

/-- A state whose RAG service holds one chunk and a cached answer for the
query `"career"`, so the indexed tier answers from the cache. -/
def c8State : BNNState :=
  ⟨⟨[c8Chunk], [], [("career".toList, [⟨c8Chunk, 0, none⟩])]⟩, ⟨[], []⟩⟩

/-- C8, witness: with a non-empty tier-1 answer the orchestrator returns
it tagged `rag_service` and never reaches the other tiers. -/
theorem searchBNN_tier_ordering_witness :
    RagService.searchKnowledge trivEnv c8State.rag "career".toList 5 =
      .ok ([⟨c8Chunk, 0, none⟩], c8State.rag) ∧
    ([⟨c8Chunk, 0, none⟩] : List FinalChunk) ≠ [] ∧
    BnnService.searchBNNKnowledge trivEnv c8State "career".toList =
      .ok (tierOneOut [⟨c8Chunk, 0, none⟩], { c8State with rag := c8State.rag },
           { keywordTier := false, staticTier := false }) :=
  ⟨by decide, by decide,
   (searchBNN_tier_ordering trivEnv c8State "career".toList).1
     [⟨c8Chunk, 0, none⟩] c8State.rag (by decide) (by decide)⟩

/-- C2, counterexample: the `bnnService.js` `processPDF` (lines 132–201)
violates the claim as stated — when both text-extraction strategies fail
it reports the fabricated success result `{ chunks: 10, embeddings: 10,
totalTextLength: 5000 }` with nonzero counts instead of a failure
status. -/
theorem bnnProcessPDF_mock_success_on_failed_extraction :
    BnnService.processPDF trivEnv ⟨[], []⟩ = (⟨10, 10, 5000⟩, ⟨[], []⟩) ∧
    trivEnv.extractedText = none ∧ (10 : ℕ) ≠ 0 :=
  ⟨rfl, rfl, by decide⟩

/-- C2, amended: the `ragService.js` `processPDF` does satisfy the
claim — when extraction produces nothing, produces only whitespace, or
the embedding backend fails, it terminates with the corresponding error
and leaves the stored corpus (and cache) untouched, publishing no
partial corpus; the `bnnService.js` `processPDF` instead reports mock
success counts (see the counterexample). -/
theorem ragProcessPDF_failure_propagation (env : Env) (s : RAGState) :
    (env.extractedText = none →
      RagService.processPDF env s = (.error "file read failed".toList, s)) ∧
    (∀ t, env.extractedText = some t → (JsStr.trim t).isEmpty = true →
      RagService.processPDF env s =
        (.error "Failed to extract text from PDF".toList, s)) ∧
    (∀ t, env.extractedText = some t → (JsStr.trim t).isEmpty = false →
      env.embed (RagService.splitIntoChunks t 500 100) = none →
      RagService.processPDF env s =
        (.error "embedding backend failed".toList, s)) := by
  refine ⟨?_, ?_, ?_⟩
  · intro h
    unfold RagService.processPDF
    rw [h]
  · intro t ht hempty
    unfold RagService.processPDF
    rw [ht]
    simp only [hempty, if_true]
  · intro t ht hempty hembed
    unfold RagService.processPDF
    rw [ht]
    simp only [hempty, if_false, Bool.false_eq_true, hembed]

/-- C2, witness: with both extraction strategies failing, the RAG
service's ingestion fails and the state is unchanged. -/
theorem ragProcessPDF_failure_propagation_witness :
    trivEnv.extractedText = none ∧
    RagService.processPDF trivEnv ⟨[], [], []⟩ =
      (.error "file read failed".toList, ⟨[], [], []⟩) :=
  ⟨rfl, (ragProcessPDF_failure_propagation trivEnv ⟨[], [], []⟩).1 rfl⟩

/-- First ingested document: sixty letters `a`. -/
def c1TextA : Txt := List.replicate 60 'a'

/-- Replacement document: sixty letters `b`. -/
def c1TextB : Txt := List.replicate 60 'b'

/-- Environment for ingesting the first document; the embedding backend
maps every text to the one-dimensional vector `[1]`. -/
def c1EnvA : Env where
  pdftotext := some c1TextA
  fileread := none
  pdfExists := true
  embed := fun cs => some (cs.map fun _ => ([1] : List ℚ))
  embedOne := fun _ => ([1] : List ℚ)
  sqrtFn := id

/-- Environment for re-ingesting the replacement document. -/
def c1EnvB : Env :=
  { c1EnvA with pdftotext := some c1TextB }

/-- The result the first search computes and caches: the chunk of the
first corpus with similarity `1` and relevance `0`. -/
def c1Stale : List FinalChunk := [⟨c1TextA, 1, some 0⟩]

/-- C1: `processPDF` replaces the corpus but never clears the query
cache (first conjunct, for every environment and state), and in the
concrete replay below the second search after re-ingestion serves the
cache entry computed against the superseded corpus: it returns the old
corpus's chunk even though the live corpus no longer contains it. -/
theorem processPDF_keeps_stale_cache :
    (∀ (env : Env) (s : RAGState), ((RagService.processPDF env s).2).cache = s.cache) ∧
    (∃ s1 s2 s3 : RAGState,
      RagService.processPDF c1EnvA ⟨[], [], []⟩ = (.ok ⟨1, 1, 60⟩, s1) ∧
      RagService.searchKnowledge c1EnvA s1 "career".toList 5 = .ok (c1Stale, s2) ∧
      RagService.processPDF c1EnvB s2 = (.ok ⟨1, 1, 60⟩, s3) ∧
      s3.chunks = [c1TextB] ∧
      RagService.searchKnowledge c1EnvB s3 "career".toList 5 = .ok (c1Stale, s3) ∧
      c1TextA ∉ s3.chunks) := by
  constructor
  · intro env s
    unfold RagService.processPDF
    cases env.extractedText with
    | none => rfl
    | some t =>
      cases hb : (JsStr.trim t).isEmpty with
      | true => simp only [hb, if_true]
      | false =>
        simp only [hb, Bool.false_eq_true, if_false]
        cases env.embed (RagService.splitIntoChunks t 500 100) with
        | none => rfl
        | some embs => rfl
  · refine ⟨⟨[c1TextA], [[1]], []⟩,
      ⟨[c1TextA], [[1]], [("career".toList, c1Stale)]⟩,
      ⟨[c1TextB], [[1]], [("career".toList, c1Stale)]⟩,
      by decide, by decide, by decide, by decide, by decide, by decide⟩

/-- A text on which the `part_006` splitting loop cycles: eighty
characters with a single period at index 11.  With `maxChunkSize = 60`
and `overlap = 5` the cut lands just after the period (index 12), the
next start becomes `7`, and from `7` the same cut is found again. -/
def c10Text : Txt := List.replicate 11 'a' ++ ['.'] ++ List.replicate 68 'b'

theorem c10Text_stuck_at_seven (fuel : ℕ) :
    Segmenter.windowsGo c10Text 60 5 100 fuel 7 = none := by
  induction fuel with
  | zero => rw [Segmenter.windowsGo_zero, if_pos (by decide)]
  | succ fuel ih =>
    have he : Segmenter.winEnd c10Text 60 100 7 = 12 := by decide
    have h125 : (12 : ℤ) - 5 = 7 := by decide
    rw [Segmenter.windowsGo_step, if_pos (by decide), he, h125,
      if_neg (by decide), ih]
    rfl

/-- C10, counterexample: for the `part_006` variant of `splitIntoChunks`
(100-character lookback), the claimed guard `overlap + 50 < maxChunkSize`
does not ensure termination: with `maxChunkSize = 60`, `overlap = 5`
(so `5 + 50 < 60` holds) on `c10Text`, no amount of fuel completes the
splitting loop. -/
theorem p6SplitLoop_diverges :
    ((5 : ℤ) + 50 < 60) ∧ ¬ Segmenter.Terminates c10Text 60 5 100 := by
  refine ⟨by decide, ?_⟩
  rintro ⟨fuel, hs⟩
  have h0 : Segmenter.windowsGo c10Text 60 5 100 fuel 0 = none := by
    cases fuel with
    | zero => rw [Segmenter.windowsGo_zero, if_pos (by decide)]
    | succ n =>
      have he : Segmenter.winEnd c10Text 60 100 0 = 12 := by decide
      have h125 : (12 : ℤ) - 5 = 7 := by decide
      rw [Segmenter.windowsGo_step, if_pos (by decide), he, h125,
        if_neg (by decide), c10Text_stuck_at_seven n]
      rfl
  rw [h0] at hs
  exact absurd hs (by decide)

/-- C10, amended: the termination guard must account for the lookback
width.  For the `ragService.js` variant (50-character lookback) the
claimed guard `overlap + 50 < maxChunkSize` does ensure termination for
every input text; the `part_006` variant (100-character lookback)
requires `overlap + 100 < maxChunkSize`, which covers its actually used
configuration 1000/200.  In both cases each iteration advances the
window start by at least `maxChunkSize - overlap - (lookback - 1) ≥ 2`,
so `text.length` iterations of fuel suffice. -/
theorem splitLoop_termination_guards (text : Txt) (maxLen overlap : ℤ) :
    (overlap + 50 < maxLen → Segmenter.Terminates text maxLen overlap 50) ∧
    (overlap + 100 < maxLen → Segmenter.Terminates text maxLen overlap 100) := by
  constructor <;> intro hg <;>
    exact ⟨text.length,
      Segmenter.windowsGo_isSome text maxLen overlap _ (by norm_num) hg
        text.length 0 le_rfl (by omega)⟩

/-- When `0 ≤ a ≤ min b length`, the JS substring is an ordinary
drop-take slice. -/
theorem JsStr.substring_within (text : Txt) (a b : ℤ) (ha : 0 ≤ a)
    (hab : a ≤ min b (text.length : ℤ)) :
    JsStr.substring text a b =
      (text.drop a.toNat).take ((min b (text.length : ℤ)).toNat - a.toNat) := by
  unfold JsStr.substring
  dsimp only
  have h0b : 0 ≤ b := le_trans ha (le_trans hab (min_le_left _ _))
  have han : a ≤ (text.length : ℤ) := le_trans hab (min_le_right _ _)
  rw [max_eq_left ha, min_eq_left han, max_eq_left h0b]
  have hAB : a.toNat ≤ (min b (text.length : ℤ)).toNat := by omega
  rw [min_eq_left hAB, max_eq_right hAB]

/-- The document for the segmenter counterexample and window-overlap
witness: 180 characters `X` with a single space at index 69 (the last
position of the first window), no sentence terminators. -/
def c5Text : Txt := List.replicate 69 'X' ++ [' '] ++ List.replicate 110 'X'

set_option maxRecDepth 40000 in
/-- C5, counterexample: the emitted chunks of
`splitIntoChunks(c5Text, 70, 15)` do not share the configured overlap at
the boundary even between the first and second of its three chunks
(neither of which is the final chunk), because each chunk is trimmed
before being stored: the space at the end of the first window is
removed, so the trailing 15 characters of chunk 0 differ from the
leading 15 characters of chunk 1.  The run also satisfies the sane
parameter guard `overlap + 50 < maxChunkSize`. -/
theorem splitIntoChunks_overlap_not_shared :
    ((15 : ℤ) + 50 < 70) ∧
    (RagService.splitIntoChunks c5Text 70 15).length = 3 ∧
    ((RagService.splitIntoChunks c5Text 70 15).getD 0 []).drop
        (((RagService.splitIntoChunks c5Text 70 15).getD 0 []).length - 15) ≠
      ((RagService.splitIntoChunks c5Text 70 15).getD 1 []).take 15 :=
  ⟨by decide, by decide, by decide⟩

/-- C5, amended: the overlap invariant holds for the raw windows rather
than the emitted chunks.  For every pair of adjacent windows produced by
the splitting loop (under the parameter guard), as long as the earlier
window ends inside the text — true for all windows except possibly the
final ones — the trailing `overlap` characters of the earlier raw window
substring equal the leading `overlap` characters of the next.  The
emitted chunks, being trimmed and quality-filtered, do not satisfy this
(see the counterexample). -/
theorem windows_share_overlap (text : Txt) (maxLen overlap : ℤ)
    (hov : 0 ≤ overlap) (hg : overlap + 50 < maxLen)
    (fuel : ℕ) (ws : List (ℤ × ℤ))
    (hws : Segmenter.windowsGo text maxLen overlap 50 fuel 0 = some ws)
    (i : ℕ) (w1 w2 : ℤ × ℤ)
    (h1 : ws[i]? = some w1) (h2 : ws[i + 1]? = some w2)
    (hend : w1.2 ≤ (text.length : ℤ)) :
    (Segmenter.rawChunk text w1).drop
        ((Segmenter.rawChunk text w1).length - overlap.toNat) =
      (Segmenter.rawChunk text w2).take overlap.toNat := by
  obtain ⟨hmem, hchain, -⟩ :=
    Segmenter.windowsGo_chain text maxLen overlap 50 (by norm_num) hg fuel 0 ws
      le_rfl hws
  obtain ⟨hi1, hw1⟩ := List.getElem?_eq_some.mp h1
  obtain ⟨hi2, hw2⟩ := List.getElem?_eq_some.mp h2
  have hrel : w2.1 = w1.2 - overlap := by
    have hc := List.chain'_iff_get.mp hchain i (by omega)
    rw [List.get_eq_getElem, List.get_eq_getElem, hw1, hw2] at hc
    exact hc
  obtain ⟨ha1, hb1⟩ := hmem w1 (hw1 ▸ List.getElem_mem hi1)
  obtain ⟨ha2, hb2⟩ := hmem w2 (hw2 ▸ List.getElem_mem hi2)
  unfold Segmenter.rawChunk
  rw [JsStr.substring_within text w1.1 w1.2 ha1 (by omega),
    JsStr.substring_within text w2.1 w2.2 ha2 (by omega),
    min_eq_left hend]
  have hAB : w1.1.toNat + overlap.toNat + 2 ≤ w1.2.toNat := by omega
  have hBn : w1.2.toNat ≤ text.length := by omega
  have hC : w2.1.toNat = w1.2.toNat - overlap.toNat := by omega
  have hD : w2.1.toNat + overlap.toNat ≤ (min w2.2 (text.length : ℤ)).toNat := by
    omega
  have hlen1 : ((text.drop w1.1.toNat).take (w1.2.toNat - w1.1.toNat)).length =
      w1.2.toNat - w1.1.toNat := by
    simp only [List.length_take, List.length_drop]
    omega
  rw [hlen1,
    List.drop_take (w1.2.toNat - w1.1.toNat)
      (w1.2.toNat - w1.1.toNat - overlap.toNat) (text.drop w1.1.toNat),
    List.drop_drop (w1.2.toNat - w1.1.toNat - overlap.toNat) w1.1.toNat text,
    List.take_take overlap.toNat
      ((min w2.2 (text.length : ℤ)).toNat - w2.1.toNat) (text.drop w2.1.toNat)]
  have e1 : w1.1.toNat + (w1.2.toNat - w1.1.toNat - overlap.toNat) =
      w1.2.toNat - overlap.toNat := by omega
  have e2 : w1.2.toNat - w1.1.toNat - (w1.2.toNat - w1.1.toNat - overlap.toNat) =
      overlap.toNat := by omega
  have e3 : min overlap.toNat ((min w2.2 (text.length : ℤ)).toNat - w2.1.toNat) =
      overlap.toNat := by omega
  rw [e1, e2, e3, hC]

set_option maxRecDepth 40000 in
/-- C5, witness: the adjacent raw windows `(0, 70)` and `(55, 125)` of
the concrete run share their 15-character boundary region. -/
theorem windows_share_overlap_witness :
    ((0 : ℤ) ≤ 15) ∧ ((15 : ℤ) + 50 < 70) ∧
    Segmenter.windowsGo c5Text 70 15 50 181 0 =
      some [(0, 70), (55, 125), (110, 180), (165, 235)] ∧
    (Segmenter.rawChunk c5Text (0, 70)).drop
        ((Segmenter.rawChunk c5Text (0, 70)).length - (15 : ℤ).toNat) =
      (Segmenter.rawChunk c5Text (55, 125)).take (15 : ℤ).toNat :=
  ⟨by decide, by decide, by decide,
   windows_share_overlap c5Text 70 15 (by decide) (by decide) 181
     [(0, 70), (55, 125), (110, 180), (165, 235)] (by decide)
     0 (0, 70) (55, 125) (by decide) (by decide) (by decide)⟩

/-- C10, witness: both actually used configurations terminate — 500/100
with the 50-lookback loop and 1000/200 with the 100-lookback loop. -/
theorem splitLoop_termination_guards_witness :
    ((100 : ℤ) + 50 < 500) ∧ ((200 : ℤ) + 100 < 1000) ∧
    Segmenter.Terminates c10Text 500 100 50 ∧
    Segmenter.Terminates c10Text 1000 200 100 :=
  ⟨by decide, by decide,
   (splitLoop_termination_guards c10Text 500 100).1 (by decide),
   (splitLoop_termination_guards c10Text 1000 200).2 (by decide)⟩

